import Mathlib

/-!
Shallow embedding of scripts/validate.py from babel-tcc-translations.

The script runs four validation passes over decoded JSON documents:
JSON syntax, schema, completeness and uniqueness.  Decoded documents are
modelled by `JVal`; Python dict values appear as association lists in
insertion order with distinct keys.  Operations that can raise a Python
exception (attribute access on a wrongly typed value, `int()` on a
non-numeric string) are modelled in the `Option` monad, `none` standing
for an uncaught exception.
-/

/-- Decoded JSON document, the result of a successful `json.load`.
Python distinguishes `bool`, `int` and `float` results; `float` carries no
payload here because no validation rule inspects a float beyond its type. -/
inductive JVal where
  | null : JVal
  | bool : Bool → JVal
  | int : Int → JVal
  | float : JVal
  | str : String → JVal
  | arr : List JVal → JVal
  | obj : List (String × JVal) → JVal

/-- Keys of a decoded object, in insertion order. -/
def objKeys (fs : List (String × JVal)) : List String := fs.map Prod.fst

/-- Models Python `str()` as interpolated into error lines and applied to
keyword-base ID values.  Exact for `None`, booleans, integers and strings;
floats and composite values are abstracted to fixed tags because their
Python text formatting is not reproduced by this embedding (no validation
rule compares such strings). -/
def pyStr : JVal → String
  | .null => "None"
  | .bool true => "True"
  | .bool false => "False"
  | .int n => toString n
  | .float => "(float)"
  | .str s => s
  | .arr _ => "(list)"
  | .obj _ => "(dict)"

/-- Structured form of one line appended to an error list by validate.py.
Each constructor corresponds to one `errors.append` site and carries the
data interpolated there (relative path first); the found value in the
keyword-value error appears through `pyStr`, as Python f-string formatting
applies `str()` to it. -/
inductive VError where
  | rootNotObject : String → VError
  | extraRootProps : String → List String → VError
  | missingField : String → String → VError
  | fieldNotObject : String → String → VError
  | keyPattern : String → String → VError
  | badKeywordValue : String → String → String → VError
  | fieldNotString : String → String → VError
  | trKeyPattern : String → String → VError
  | trValueNotString : String → String → VError
  | trValueEmpty : String → String → VError
  | noKeywordBase : String → String → VError
  | missingIds : String → String → VError
  | extraIds : String → String → VError
  | dupTranslation : String → String → String → String → VError
deriving DecidableEq

/-- Lowercase ASCII letter test, the character class of KEYWORD_PATTERN. -/
def isLowerAZ (c : Char) : Bool := 'a' ≤ c && c ≤ 'z'

/-- ASCII digit test, the character class of ID_PATTERN. -/
def isDigit09 (c : Char) : Bool := '0' ≤ c && c ≤ '9'

/-- Models Python `re.match` of an anchored pattern `^[class]+` followed by
a dollar anchor, with no flags.  In Python the dollar anchor matches at the
end of the string or just before one final newline, so a string made of
pattern characters plus a single trailing newline is accepted. -/
def reFullLineMatch (p : Char → Bool) (s : String) : Bool :=
  let cs := s.toList
  let core := if cs.getLast? = some '\n' then cs.dropLast else cs
  !core.isEmpty && core.all p

/-- Models `KEYWORD_PATTERN.match(key)` where KEYWORD_PATTERN is the compiled
lowercase-letters pattern of validate.py. -/
def matchLowerPattern (s : String) : Bool := reFullLineMatch isLowerAZ s

/-- Models `ID_PATTERN.match(key)` where ID_PATTERN is the compiled
digits pattern of validate.py. -/
def matchDigitsPattern (s : String) : Bool := reFullLineMatch isDigit09 s

/-- Models Python `isinstance(v, int)`.  Python booleans are a subclass of
int, so they pass this test. -/
def pyIsInt : JVal → Bool
  | .int _ => true
  | .bool _ => true
  | _ => false

/-- Numeric value of a Python int, with booleans valued 1 and 0.  Only
meaningful where `pyIsInt` holds; the remaining cases are unreachable
because the Python code short-circuits on the isinstance test first. -/
def pyIntVal : JVal → Int
  | .int n => n
  | .bool b => if b then 1 else 0
  | _ => 0

/-- Models `isinstance(v, str)`. -/
def isJStr : JVal → Bool
  | .str _ => true
  | _ => false

/-- Per-entry checks of the keywords table: the key pattern test and the
non-negative-integer value test, in source order. -/
def checkKeywordEntry (rel key : String) (value : JVal) : List VError :=
  (if matchLowerPattern key then [] else [VError.keyPattern rel key]) ++
  (if pyIsInt value && decide (0 ≤ pyIntVal value) then []
   else [VError.badKeywordValue rel key (pyStr value)])

/-- Embeds `validate_keyword_table_schema(path, data)`; `rel` is the
path relative to the repository root. -/
def validate_keyword_table_schema (rel : String) (data : JVal) : List VError :=
  match data with
  | .obj fields =>
    let extraRoot := (objKeys fields).dedup.filter (fun k => k != "keywords")
    let extraErrs := if extraRoot.isEmpty then [] else [VError.extraRootProps rel extraRoot]
    match fields.lookup "keywords" with
    | none => extraErrs ++ [VError.missingField rel "keywords"]
    | some (.obj kws) => extraErrs ++ kws.flatMap (fun p => checkKeywordEntry rel p.1 p.2)
    | some _ => extraErrs ++ [VError.fieldNotObject rel "keywords"]
  | _ => [VError.rootNotObject rel]

/-- Required top-level fields of a translation document, in source order. -/
def requiredFields : List String :=
  ["version", "languageCode", "languageName", "programmingLanguage", "translations"]

/-- The four string-typed top-level fields, in source order. -/
def stringTypedFields : List String :=
  ["version", "languageCode", "languageName", "programmingLanguage"]

/-- Per-entry checks of the translations table: the digits key pattern, then
string-ness of the value, and only for string values the non-empty check
(the elif in the source). -/
def checkTranslationEntry (rel key : String) (value : JVal) : List VError :=
  (if matchDigitsPattern key then [] else [VError.trKeyPattern rel key]) ++
  (match value with
   | .str s => if s.length < 1 then [VError.trValueEmpty rel key] else []
   | _ => [VError.trValueNotString rel key])

/-- Embeds `validate_translation_schema(path, data)`. -/
def validate_translation_schema (rel : String) (data : JVal) : List VError :=
  match data with
  | .obj fields =>
    let keys := objKeys fields
    let missErrs := requiredFields.filterMap
      (fun f => if keys.contains f then none else some (VError.missingField rel f))
    let extraRoot := keys.dedup.filter (fun k => !(requiredFields.contains k))
    let extraErrs := if extraRoot.isEmpty then [] else [VError.extraRootProps rel extraRoot]
    let strErrs := stringTypedFields.filterMap (fun f =>
      match fields.lookup f with
      | some v => if isJStr v then none else some (VError.fieldNotString rel f)
      | none => none)
    let base := missErrs ++ extraErrs ++ strErrs
    match fields.lookup "translations" with
    | none => base
    | some (.obj ts) => base ++ ts.flatMap (fun p => checkTranslationEntry rel p.1 p.2)
    | some _ => base ++ [VError.fieldNotObject rel "translations"]
  | _ => [VError.rootNotObject rel]

/-- Models `str.lower()` by per-character lowercasing, which agrees with
Python on ASCII (the data of this repository); exotic Unicode special
cases of Python lower() are not reproduced.  Written over the character
list so that it evaluates inside the kernel. -/
def lowerStr (s : String) : String := String.mk (s.data.map Char.toLower)

/-- Suffix test on strings over their character lists (the Python
str.endswith used by the glob model), written so that it evaluates inside
the kernel. -/
def strEndsWith (s p : String) : Bool := p.data.isSuffixOf s.data

/-- Models Python dict .get with a default: attribute access on a non-dict
raises (none). -/
def pyGet (v : JVal) (k : String) (d : JVal) : Option JVal :=
  match v with
  | .obj fs => some ((fs.lookup k).getD d)
  | _ => none

/-- Models `.values()`: raises on a non-dict. -/
def pyValues : JVal → Option (List JVal)
  | .obj fs => some (fs.map Prod.snd)
  | _ => none

/-- Models `.keys()`: raises on a non-dict. -/
def pyKeys : JVal → Option (List String)
  | .obj fs => some (fs.map Prod.fst)
  | _ => none

/-- Models `.items()`: raises on a non-dict. -/
def pyItems : JVal → Option (List (String × JVal))
  | .obj fs => some fs
  | _ => none

/-- Models `.lower()`: raises on a non-string. -/
def pyLower : JVal → Option String
  | .str s => some (lowerStr s)
  | _ => none

/-- Decimal digit value, for the int() model. -/
def digitVal (c : Char) : Option Nat :=
  if isDigit09 c then some (c.toNat - '0'.toNat) else none

/-- Digit run of a Python int literal after the sign: digits with single
underscores allowed between digits, never leading, trailing or doubled. -/
def pyIntDigitsAux (acc : Nat) : List Char → Option Nat
  | [] => some acc
  | '_' :: rest =>
    match rest with
    | [] => none
    | c :: rest2 =>
      match digitVal c with
      | some d => pyIntDigitsAux (acc * 10 + d) rest2
      | none => none
  | c :: rest =>
    match digitVal c with
    | some d => pyIntDigitsAux (acc * 10 + d) rest
    | none => none

/-- First digit is mandatory and may not be an underscore. -/
def pyIntDigits : List Char → Option Nat
  | [] => none
  | c :: rest =>
    match digitVal c with
    | some d => pyIntDigitsAux d rest
    | none => none

/-- Whitespace stripped by Python int() around the literal (ASCII subset). -/
def isPySpace (c : Char) : Bool :=
  c = ' ' || c = '\t' || c = '\n' || c = '\r' || c = '\x0b' || c = '\x0c'

/-- Models Python `int(s)` on a decimal string: surrounding whitespace, an
optional sign, then digits with optional single underscores; none models
the ValueError raised on anything else. -/
def pyInt (s : String) : Option Int :=
  let cs := ((s.toList.dropWhile isPySpace).reverse.dropWhile isPySpace).reverse
  match cs with
  | '+' :: rest => (pyIntDigits rest).map (fun n => (n : Int))
  | '-' :: rest => (pyIntDigits rest).map (fun n => -(n : Int))
  | rest => (pyIntDigits rest).map (fun n => (n : Int))

/-- Keyword-base document paired with the name of its containing language
directory, as collected by validate_completeness. -/
structure KBFile where
  langName : String
  data : JVal

/-- Translation document paired with its path relative to the repository
root. -/
structure TRFile where
  rel : String
  data : JVal

/-- Python dict assignment `d[k] = v`: replaces the value in place when the
key exists, otherwise appends the pair. -/
def dictInsert {α : Type} (d : List (String × α)) (k : String) (v : α) : List (String × α) :=
  if d.any (fun p => p.1 == k) then d.map (fun p => if p.1 == k then (k, v) else p)
  else d ++ [(k, v)]

/-- ID set of one keyword-base document: `set(str(v) for v in
data.get("keywords", {}).values())`.  Raises (none) when the document root
or its keywords field is not a dict. -/
def kbIdSet (data : JVal) : Option (List String) := do
  let kwv ← pyGet data "keywords" (JVal.obj [])
  let vals ← pyValues kwv
  pure ((vals.map pyStr).dedup)

/-- Accumulating loop of the prog_langs construction in
validate_completeness. -/
def buildProgLangsAux (acc : List (String × List String)) :
    List KBFile → Option (List (String × List String))
  | [] => some acc
  | kb :: rest => do
    let ids ← kbIdSet kb.data
    buildProgLangsAux (dictInsert acc kb.langName ids) rest

/-- Mapping from keyword-base directory name to its ID set, built in file
order with later files overwriting earlier ones of the same name. -/
def buildProgLangs (kbs : List KBFile) : Option (List (String × List String)) :=
  buildProgLangsAux [] kbs

/-- Set difference base_ids - translation_ids on the string ID sets. -/
def missingOf (baseIds ks : List String) : List String :=
  baseIds.filter (fun s => !(ks.dedup.contains s))

/-- Set difference translation_ids - base_ids on the string ID sets. -/
def extraOf (baseIds ks : List String) : List String :=
  ks.dedup.filter (fun s => !(baseIds.contains s))

/-- Sequencing of a fallible step over a list, written recursively so that
proofs can proceed by structural induction (the Option analogue of mapM). -/
def mapOptionList {α β : Type} (f : α → Option β) : List α → Option (List β)
  | [] => some []
  | a :: l => do
    let b ← f a
    let bs ← mapOptionList f l
    pure (b :: bs)

/-- Models `sorted(ids, key=int)`: computes int(s) for every element (a
non-numeric string raises) and stable-sorts by that key. -/
def sortByIntKey (ids : List String) : Option (List String) := do
  let keyed ← mapOptionList (fun s => (pyInt s).map (fun n => (n, s))) ids
  pure ((keyed.mergeSort (fun a b => decide (a.1 ≤ b.1))).map Prod.snd)

/-- Per-translation-file body of the loop in validate_completeness:
resolve the lower-cased programmingLanguage against prog_langs, then
report missing and extra IDs. -/
def checkTranslation (progLangs : List (String × List String)) (tr : TRFile) :
    Option (List VError) := do
  let plv ← pyGet tr.data "programmingLanguage" (JVal.str "")
  let progLang ← pyLower plv
  match progLangs.lookup progLang with
  | none => pure [VError.noKeywordBase tr.rel progLang]
  | some baseIds => do
    let tv ← pyGet tr.data "translations" (JVal.obj [])
    let ks ← pyKeys tv
    let missing := missingOf baseIds ks
    let extra := extraOf baseIds ks
    let mErrs ← if missing.isEmpty then pure ([] : List VError)
      else do
        let sm ← sortByIntKey missing
        pure [VError.missingIds tr.rel (String.intercalate ", " sm)]
    let xErrs ← if extra.isEmpty then pure ([] : List VError)
      else do
        let sx ← sortByIntKey extra
        pure [VError.extraIds tr.rel (String.intercalate ", " sx)]
    pure (mErrs ++ xErrs)

/-- Embeds validate_completeness over already-decoded documents. -/
def completenessCore (kbs : List KBFile) (trs : List TRFile) : Option (List VError) := do
  let pl ← buildProgLangs kbs
  let errsList ← mapOptionList (checkTranslation pl) trs
  pure errsList.flatten

/-- Loop body of validate_uniqueness over the items of one translations
dict, with `seen` the first-seen mapping from lower-cased word to ID. -/
def uniqLoop (rel : String) : List (String × JVal) → List (String × String) → List VError
  | [], _ => []
  | (idKey, w) :: rest, seen =>
    match w with
    | .str s =>
      if s.isEmpty then uniqLoop rel rest seen
      else
        match seen.lookup (lowerStr s) with
        | some firstId => VError.dupTranslation rel s firstId idKey :: uniqLoop rel rest seen
        | none => uniqLoop rel rest (seen ++ [(lowerStr s, idKey)])
    | _ => uniqLoop rel rest seen

/-- Per-translation-file body of validate_uniqueness. -/
def checkUniquenessOne (tr : TRFile) : Option (List VError) := do
  let tv ← pyGet tr.data "translations" (JVal.obj [])
  let items ← pyItems tv
  pure (uniqLoop tr.rel items [])

/-- Embeds validate_uniqueness over already-decoded documents. -/
def uniquenessCore (trs : List TRFile) : Option (List VError) := do
  let errsList ← mapOptionList checkUniquenessOne trs
  pure errsList.flatten

/-- Embeds validate_schemas over already-decoded documents: keyword-base
files first, then translation files, each contributing its own error list. -/
def schemasCore (kbs : List (String × JVal)) (trs : List (String × JVal)) : List VError :=
  kbs.flatMap (fun p => validate_keyword_table_schema p.1 p.2) ++
  trs.flatMap (fun p => validate_translation_schema p.1 p.2)

/-- One file of the repository tree: its path components relative to the
repository root and the outcome of `json.load` on it (`Except.error` carries
the decoder message of a JSONDecodeError). -/
structure RepoFile where
  segs : List String
  content : Except String JVal

/-- Final path component (Path.name). -/
def fileName (f : RepoFile) : String := (f.segs.getLast?).getD ""

/-- Path relative to the repository root, as printed in error lines. -/
def relPath (f : RepoFile) : String := String.intercalate "/" f.segs

/-- Name of the containing directory (Path.parent.name). -/
def parentName (f : RepoFile) : String := (f.segs.dropLast.getLast?).getD ""

/-- Models `ROOT.rglob("*.json")`: every file of the tree whose name ends in
.json, in tree order. -/
def allJsonFiles (repo : List RepoFile) : List RepoFile :=
  repo.filter (fun f => strEndsWith (fileName f) ".json")

/-- Embeds find_keywords_base_files: files named exactly keywords-base.json
anywhere under the programming-languages root. -/
def find_keywords_base_files (repo : List RepoFile) : List RepoFile :=
  repo.filter (fun f => f.segs.head? == some "programming-languages" &&
    fileName f == "keywords-base.json")

/-- Embeds find_translation_files: .json files anywhere under the
natural-languages root, excluding the reserved template.json. -/
def find_translation_files (repo : List RepoFile) : List RepoFile :=
  repo.filter (fun f => f.segs.head? == some "natural-languages" &&
    strEndsWith (fileName f) ".json" && fileName f != "template.json")

/-- Result of re-running `json.load` on a file after the syntax gate. -/
def decodeOf (f : RepoFile) : Option JVal :=
  match f.content with
  | .ok v => some v
  | .error _ => none

/-- Embeds validate_json_syntax: one error line per file that fails to
decode, in file order (the name here carries an errors suffix). -/
def validate_json_syntax_errors (files : List RepoFile) : List String :=
  files.filterMap (fun f =>
    match f.content with
    | .ok _ => none
    | .error e => some ("  " ++ relPath f ++ ": " ++ e))

/-- Embeds validate_schemas at the repository level; none models the
JSONDecodeError raised when a relevant file no longer decodes. -/
def validate_schemas (repo : List RepoFile) : Option (List VError) := do
  let kbErrs ← mapOptionList
    (fun f => (decodeOf f).map (fun d => validate_keyword_table_schema (relPath f) d))
    (find_keywords_base_files repo)
  let trErrs ← mapOptionList
    (fun f => (decodeOf f).map (fun d => validate_translation_schema (relPath f) d))
    (find_translation_files repo)
  pure (kbErrs.flatten ++ trErrs.flatten)

/-- Keyword-base documents of the repository with their directory names. -/
def kbFilesOf (repo : List RepoFile) : Option (List KBFile) :=
  mapOptionList (fun f => (decodeOf f).map (fun d => KBFile.mk (parentName f) d))
    (find_keywords_base_files repo)

/-- Translation documents of the repository with their relative paths. -/
def trFilesOf (repo : List RepoFile) : Option (List TRFile) :=
  mapOptionList (fun f => (decodeOf f).map (fun d => TRFile.mk (relPath f) d))
    (find_translation_files repo)

/-- Embeds validate_completeness at the repository level. -/
def validate_completeness (repo : List RepoFile) : Option (List VError) := do
  let kbs ← kbFilesOf repo
  let trs ← trFilesOf repo
  completenessCore kbs trs

/-- Embeds validate_uniqueness at the repository level. -/
def validate_uniqueness (repo : List RepoFile) : Option (List VError) := do
  let trs ← trFilesOf repo
  uniquenessCore trs

/-- Observable outcome of one run of the driver: the syntax error lines, the
error list of each later stage (none when the stage was skipped because of
syntax errors) and the process exit code. -/
structure MainResult where
  syntaxErrors : List String
  schemaErrors : Option (List VError)
  completenessErrors : Option (List VError)
  uniquenessErrors : Option (List VError)
  exitCode : Nat
deriving DecidableEq

/-- Embeds main() (named mainDriver because Lean reserves the name main for
executables): the syntax stage gates the other three, has_errors is set
by any non-empty stage, and the exit code is 0 only on full success.  The
outer none models a Python traceback from stage 3 or 4 (which also ends the
process with a non-zero code). -/
def mainDriver (repo : List RepoFile) : Option MainResult :=
  let se := validate_json_syntax_errors (allJsonFiles repo)
  if se.isEmpty then do
    let sch ← validate_schemas repo
    let comp ← validate_completeness repo
    let uniq ← validate_uniqueness repo
    let hasErrors := !(sch.isEmpty && comp.isEmpty && uniq.isEmpty)
    pure (MainResult.mk se (some sch) (some comp) (some uniq) (if hasErrors then 1 else 0))
  else
    some (MainResult.mk se none none none 1)

/-- Process exit code of a run: the recorded code on a normal exit, and 1
when an uncaught exception ends the interpreter. -/
def runExitCode (repo : List RepoFile) : Nat :=
  match mainDriver repo with
  | some r => r.exitCode
  | none => 1

/-- Spec-side predicate for claim C7: the whole key consists of one or more
lowercase ASCII letters. -/
def fullyLowerAlpha (s : String) : Bool := !s.isEmpty && s.toList.all isLowerAZ

/-- Spec-side view of one translations entry for the uniqueness rules: the
ID and word of an entry whose value is a non-empty string. -/
def validEntry : String × JVal → Option (String × String)
  | (idKey, .str s) => if s.isEmpty then none else some (idKey, s)
  | _ => none

/-- Spec-side first-seen ID: the ID of the first valid entry of `items`
whose lower-cased word is `lw`. -/
def firstSeenId (items : List (String × JVal)) (lw : String) : Option String :=
  (((items.filterMap validEntry).find? (fun p => lowerStr p.2 == lw)).map Prod.fst)

/-- Spec-side description of the uniqueness errors, following the spec text:
walking the entries with `pre` the already-processed prefix, a valid entry
whose lower-cased word already occurred in a valid entry of the prefix is
reported against the first such occurrence. -/
def dupSpec (rel : String) (pre : List (String × JVal)) :
    List (String × JVal) → List VError
  | [] => []
  | e :: rest =>
    (match validEntry e with
     | some (idKey, s) =>
       match firstSeenId pre (lowerStr s) with
       | some fid => [VError.dupTranslation rel s fid idKey]
       | none => []
     | none => []) ++ dupSpec rel (pre ++ [e]) rest

/-- Sort key used for ID lists, defined where int() succeeds. -/
def intKeyOf (s : String) : Int := (pyInt s).getD 0

/-- An ID list is sorted by numeric value. -/
def sortedByIntKey (L : List String) : Prop :=
  L.Pairwise (fun a b => intKeyOf a ≤ intKeyOf b)

/-- Shape assumption on a keyword-base document under which the
completeness checker cannot raise on it: the root is an object and a
keywords field, when present, holds an object. -/
def KBShape (kb : KBFile) : Prop :=
  ∃ fields, kb.data = JVal.obj fields ∧
    ∀ v, fields.lookup "keywords" = some v → ∃ kws, v = JVal.obj kws

/-- Shape assumption on a translation document under which the attribute
accesses of the completeness and uniqueness checkers cannot raise: the root
is an object, programmingLanguage (when present) is a string, and
translations (when present) is an object. -/
def TRShape (tr : TRFile) : Prop :=
  ∃ fields, tr.data = JVal.obj fields ∧
    (∀ v, fields.lookup "programmingLanguage" = some v → ∃ s, v = JVal.str s) ∧
    (∀ v, fields.lookup "translations" = some v → ∃ ts, v = JVal.obj ts)

/-- Assumption that every ID compared for a translation document parses as
a Python int, so that the sort of the completeness checker cannot raise. -/
def TRIdsParse (pl : List (String × List String)) (tr : TRFile) : Prop :=
  ∀ plv lang baseIds tv ks,
    pyGet tr.data "programmingLanguage" (JVal.str "") = some plv →
    pyLower plv = some lang →
    pl.lookup lang = some baseIds →
    pyGet tr.data "translations" (JVal.obj []) = some tv →
    pyKeys tv = some ks →
    (∀ s ∈ missingOf baseIds ks, (pyInt s).isSome) ∧
    (∀ s ∈ extraOf baseIds ks, (pyInt s).isSome)


/-- Membership in a dict after assignment: the pair was already present or
is the assigned pair. -/
theorem mem_dictInsert {α : Type} {d : List (String × α)} {k : String} {v : α}
    {p : String × α} (h : p ∈ dictInsert d k v) : p ∈ d ∨ p = (k, v) := by
  unfold dictInsert at h
  by_cases hc : d.any (fun q => q.1 == k)
  · rw [if_pos hc] at h
    rcases List.mem_map.mp h with ⟨q, hq, hpq⟩
    by_cases hqk : q.1 == k
    · right
      rw [if_pos hqk] at hpq
      exact hpq.symm
    · left
      rw [if_neg hqk] at hpq
      exact hpq ▸ hq
  · rw [if_neg hc] at h
    rcases List.mem_append.mp h with h1 | h1
    · exact Or.inl h1
    · exact Or.inr (List.mem_singleton.mp h1)

/-- Every entry of the built prog_langs mapping comes from the accumulator
or carries the ID set of one of the keyword-base files. -/
theorem buildProgLangsAux_mem (kbs : List KBFile) :
    ∀ (acc pl : List (String × List String)), buildProgLangsAux acc kbs = some pl →
    ∀ p ∈ pl, p ∈ acc ∨ ∃ kb ∈ kbs, kb.langName = p.1 ∧ kbIdSet kb.data = some p.2 := by
  induction kbs with
  | nil =>
    intro acc pl h p hp
    unfold buildProgLangsAux at h
    cases h
    exact Or.inl hp
  | cons kb rest ih =>
    intro acc pl h p hp
    unfold buildProgLangsAux at h
    cases hids : kbIdSet kb.data with
    | none => rw [hids] at h; cases h
    | some ids =>
      rw [hids] at h
      replace h : buildProgLangsAux (dictInsert acc kb.langName ids) rest = some pl := h
      rcases ih (dictInsert acc kb.langName ids) pl h p hp with h1 | ⟨kb2, hkb2, h2, h3⟩
      · rcases mem_dictInsert h1 with h2 | h2
        · exact Or.inl h2
        · refine Or.inr ⟨kb, List.mem_cons_self kb rest, ?_, ?_⟩
          · rw [h2]
          · rw [h2, hids]
      · exact Or.inr ⟨kb2, List.mem_cons_of_mem kb hkb2, h2, h3⟩

/-- Successful run of the key computation of sorted(ids, key=int): results
pair each ID with its parsed value, in order. -/
theorem keyedList_spec (ids : List String) (h : ∀ s ∈ ids, (pyInt s).isSome) :
    ∃ keyed : List (Int × String),
      mapOptionList (fun s => (pyInt s).map (fun n => (n, s))) ids = some keyed ∧
      keyed.map Prod.snd = ids ∧ ∀ p ∈ keyed, pyInt p.2 = some p.1 := by
  induction ids with
  | nil => exact ⟨[], rfl, rfl, by intro p hp; cases hp⟩
  | cons a rest ih =>
    have ha := h a (List.mem_cons_self a rest)
    cases hpa : pyInt a with
    | none => rw [hpa] at ha; cases ha
    | some n =>
      rcases ih (fun s hs => h s (List.mem_cons_of_mem a hs)) with ⟨keyed, h1, h2, h3⟩
      refine ⟨(n, a) :: keyed, ?_, ?_, ?_⟩
      · show Option.bind ((pyInt a).map (fun m => (m, a)))
          (fun b => Option.bind (mapOptionList _ rest) (fun bs => some (b :: bs))) = _
        rw [hpa, h1]
        rfl
      · show a :: keyed.map Prod.snd = a :: rest
        rw [h2]
      · intro p hp
        rcases List.mem_cons.mp hp with h4 | h4
        · rw [h4]
          exact hpa
        · exact h3 p h4

/-- The sort with key=int succeeds on IDs that all parse, and returns a
permutation of the input that is sorted by numeric value. -/
theorem sortByIntKey_spec (ids : List String) (h : ∀ s ∈ ids, (pyInt s).isSome) :
    ∃ L, sortByIntKey ids = some L ∧ L.Perm ids ∧ sortedByIntKey L := by
  rcases keyedList_spec ids h with ⟨keyed, hkeyed, hsnd_eq, hsnd⟩
  refine ⟨(keyed.mergeSort (fun a b => decide (a.1 ≤ b.1))).map Prod.snd, ?_, ?_, ?_⟩
  · show Option.bind (mapOptionList _ ids) _ = _
    rw [hkeyed]
    rfl
  · rw [← hsnd_eq]
    exact (List.mergeSort_perm keyed _).map Prod.snd
  · have hs := @List.sorted_mergeSort (Int × String) (fun a b => decide (a.1 ≤ b.1))
      (fun a b c hab hbc => by
        simp only [decide_eq_true_eq] at hab hbc ⊢
        exact le_trans hab hbc)
      (fun a b => by
        rcases le_total a.1 b.1 with h1 | h1 <;> simp [h1])
      keyed
    unfold sortedByIntKey
    rw [List.pairwise_map]
    refine hs.imp_of_mem ?_
    intro a b ha hb hab
    have ha2 := hsnd a (List.mem_mergeSort.mp ha)
    have hb2 := hsnd b (List.mem_mergeSort.mp hb)
    simp only [decide_eq_true_eq] at hab
    unfold intKeyOf
    rw [ha2, hb2]
    exact hab


/-- In a dict with distinct keys, the value of a key is unique. -/
theorem value_unique_of_nodup {ts : List (String × JVal)} (hnd : (objKeys ts).Nodup)
    {k : String} {v v2 : JVal} (h1 : (k, v) ∈ ts) (h2 : (k, v2) ∈ ts) : v = v2 := by
  induction ts with
  | nil => cases h1
  | cons hd tl ih =>
    rcases List.nodup_cons.mp hnd with ⟨hk, hnd2⟩
    rcases List.mem_cons.mp h1 with ha | ha <;> rcases List.mem_cons.mp h2 with hb | hb
    · rw [← ha] at hb
      exact congrArg Prod.snd hb.symm
    · exfalso
      apply hk
      rw [← ha]
      exact List.mem_map.mpr ⟨(k, v2), hb, rfl⟩
    · exfalso
      apply hk
      rw [← hb]
      exact List.mem_map.mpr ⟨(k, v), ha, rfl⟩
    · exact ih hnd2 ha hb

/-- The key-pattern error appears in one keyword entry check exactly for
that key, when the Python regex rejects it. -/
theorem mem_checkKeywordEntry_keyPattern {r k rel k2 : String} {v : JVal} :
    VError.keyPattern r k ∈ checkKeywordEntry rel k2 v ↔
      r = rel ∧ k = k2 ∧ matchLowerPattern k2 = false := by
  unfold checkKeywordEntry
  rcases hm : matchLowerPattern k2 <;>
    rcases hv : pyIsInt v && decide (0 ≤ pyIntVal v) <;>
    simp [hm, hv, VError.keyPattern.injEq, and_comm]

/-- The keyword-value error appears in one keyword entry check exactly for
that key and rendered value, when the isinstance-int-and-nonnegative test
fails. -/
theorem mem_checkKeywordEntry_badValue {r k w rel k2 : String} {v : JVal} :
    VError.badKeywordValue r k w ∈ checkKeywordEntry rel k2 v ↔
      r = rel ∧ k = k2 ∧ w = pyStr v ∧ (pyIsInt v && decide (0 ≤ pyIntVal v)) = false := by
  unfold checkKeywordEntry
  rcases hm : matchLowerPattern k2 <;>
    rcases hv : pyIsInt v && decide (0 ≤ pyIntVal v) <;>
    simp [hm, hv, VError.badKeywordValue.injEq]

/-- A string of length zero is the empty string. -/
theorem string_length_eq_zero_iff (s : String) : s.length = 0 ↔ s = "" := by
  cases s with
  | mk l =>
    constructor
    · intro h
      have h2 : l = [] := List.length_eq_zero.mp (by simpa [String.length] using h)
      rw [h2]
    · intro h
      rw [h]
      rfl

theorem mem_checkTranslationEntry_notString {r k rel k2 : String} {v : JVal} :
    VError.trValueNotString r k ∈ checkTranslationEntry rel k2 v ↔
      r = rel ∧ k = k2 ∧ isJStr v = false := by
  unfold checkTranslationEntry
  rcases hm : matchDigitsPattern k2 <;> cases v <;>
    simp [hm, isJStr, VError.trValueNotString.injEq]

theorem mem_checkTranslationEntry_empty {r k rel k2 : String} {v : JVal} :
    VError.trValueEmpty r k ∈ checkTranslationEntry rel k2 v ↔
      r = rel ∧ k = k2 ∧ v = JVal.str "" := by
  unfold checkTranslationEntry
  rcases hm : matchDigitsPattern k2 <;> cases v <;>
    simp [hm, VError.trValueEmpty.injEq, string_length_eq_zero_iff] <;> tauto

theorem mem_checkTranslationEntry_keyPat {r k rel k2 : String} {v : JVal} :
    VError.trKeyPattern r k ∈ checkTranslationEntry rel k2 v ↔
      r = rel ∧ k = k2 ∧ matchDigitsPattern k2 = false := by
  unfold checkTranslationEntry
  rcases hm : matchDigitsPattern k2 <;> cases v <;>
    simp [hm, VError.trKeyPattern.injEq]

/-- C7 (amended): in a keyword-base document with an object-valued keywords
field, a pattern error is reported for a key exactly when the key fails the
Python regex match of the lowercase pattern — one or more lowercase ASCII
letters optionally followed by a single trailing newline (the dollar anchor
accepts one final newline, so full-match of the letter class is not
required). -/
theorem c7_keyword_key_pattern (rel k : String) (fields kws : List (String × JVal)) (v : JVal)
    (hk : fields.lookup "keywords" = some (JVal.obj kws))
    (hmem : (k, v) ∈ kws) :
    VError.keyPattern rel k ∈ validate_keyword_table_schema rel (JVal.obj fields) ↔
      matchLowerPattern k = false := by
  constructor
  · intro h
    simp only [validate_keyword_table_schema, hk] at h
    rcases List.mem_append.mp h with h1 | h1
    · exfalso
      revert h1
      split <;> simp
    · rcases List.mem_flatMap.mp h1 with ⟨p, hp, hpe⟩
      rcases mem_checkKeywordEntry_keyPattern.mp hpe with ⟨_, hk2, hm⟩
      rw [hk2]
      exact hm
  · intro h
    simp only [validate_keyword_table_schema, hk]
    refine List.mem_append.mpr (Or.inr ?_)
    refine List.mem_flatMap.mpr ⟨(k, v), hmem, ?_⟩
    exact mem_checkKeywordEntry_keyPattern.mpr ⟨rfl, rfl, h⟩

theorem count_badValue_flatMap (rel k : String) (v : JVal) (kws : List (String × JVal))
    (hnd : (objKeys kws).Nodup) (hmem : (k, v) ∈ kws) :
    (kws.flatMap (fun p => checkKeywordEntry rel p.1 p.2)).count
      (VError.badKeywordValue rel k (pyStr v)) =
      if pyIsInt v && decide (0 ≤ pyIntVal v) then 0 else 1 := by
  induction kws with
  | nil => cases hmem
  | cons hd tl ih =>
    have hnd2 : (objKeys tl).Nodup := (List.nodup_cons.mp hnd).2
    have hk0 : hd.1 ∉ objKeys tl := by
      have := (List.nodup_cons.mp hnd).1
      simpa [objKeys] using this
    rw [List.flatMap_cons, List.count_append]
    rcases List.mem_cons.mp hmem with h1 | h1
    · have htl : (tl.flatMap (fun p => checkKeywordEntry rel p.1 p.2)).count
          (VError.badKeywordValue rel k (pyStr v)) = 0 := by
        refine List.count_eq_zero.mpr ?_
        intro hmem2
        rcases List.mem_flatMap.mp hmem2 with ⟨p, hp, hpe⟩
        rcases mem_checkKeywordEntry_badValue.mp hpe with ⟨_, hk2, _, _⟩
        apply hk0
        rw [← h1]
        show k ∈ objKeys tl
        rw [hk2]
        exact List.mem_map.mpr ⟨p, hp, rfl⟩
      rw [htl]
      rw [← h1]
      unfold checkKeywordEntry
      rcases hv : pyIsInt v && decide (0 ≤ pyIntVal v) <;>
        rcases hm : matchLowerPattern k <;>
        simp [hv, hm, List.count_cons, List.count_nil]
    · have hne : hd.1 ≠ k := by
        intro h
        apply hk0
        rw [h]
        exact List.mem_map.mpr ⟨(k, v), h1, rfl⟩
      have hhd : (checkKeywordEntry rel hd.1 hd.2).count
          (VError.badKeywordValue rel k (pyStr v)) = 0 := by
        refine List.count_eq_zero.mpr ?_
        intro hmem2
        rcases mem_checkKeywordEntry_badValue.mp hmem2 with ⟨_, hk2, _, _⟩
        exact hne hk2.symm
      rw [hhd, ih hnd2 h1]
      exact Nat.zero_add _

theorem mem_translation_schema_entry (rel : String) (fields ts : List (String × JVal))
    (ht : fields.lookup "translations" = some (JVal.obj ts)) (e : VError)
    (h1 : ∀ r f, e ≠ VError.missingField r f)
    (h2 : ∀ r l, e ≠ VError.extraRootProps r l)
    (h3 : ∀ r f, e ≠ VError.fieldNotString r f) :
    e ∈ validate_translation_schema rel (JVal.obj fields) ↔
      ∃ p ∈ ts, e ∈ checkTranslationEntry rel p.1 p.2 := by
  simp only [validate_translation_schema, ht]
  constructor
  · intro h
    rcases List.mem_append.mp h with hb | hf
    · exfalso
      rcases List.mem_append.mp hb with hms | hs
      · rcases List.mem_append.mp hms with hm | he
        · rcases List.mem_filterMap.mp hm with ⟨a, _, ha⟩
          revert ha
          split <;> intro ha
          · cases ha
          · exact h1 rel a (Option.some.inj ha).symm
        · revert he
          split
          · intro he
            cases he
          · intro he
            exact h2 rel _ (List.mem_singleton.mp he)
      · rcases List.mem_filterMap.mp hs with ⟨a, _, ha⟩
        revert ha
        split <;> intro ha
        · revert ha
          split <;> intro ha
          · cases ha
          · exact h3 rel a (Option.some.inj ha).symm
        · cases ha
    · exact List.mem_flatMap.mp hf
  · intro h
    exact List.mem_append.mpr (Or.inr (List.mem_flatMap.mpr h))

/-- C9: in a translation document, an entry with a non-string value gets the
must-be-a-string error, an entry whose value is the empty string gets the
distinct is-empty error, and no key ever gets both. -/
theorem c9_translation_value_errors (rel k : String) (fields ts : List (String × JVal)) (v : JVal)
    (ht : fields.lookup "translations" = some (JVal.obj ts))
    (hnd : (objKeys ts).Nodup) (hmem : (k, v) ∈ ts) :
    (VError.trValueNotString rel k ∈ validate_translation_schema rel (JVal.obj fields) ↔
      isJStr v = false) ∧
    (VError.trValueEmpty rel k ∈ validate_translation_schema rel (JVal.obj fields) ↔
      v = JVal.str "") ∧
    ¬(VError.trValueNotString rel k ∈ validate_translation_schema rel (JVal.obj fields) ∧
      VError.trValueEmpty rel k ∈ validate_translation_schema rel (JVal.obj fields)) := by
  have hA : VError.trValueNotString rel k ∈ validate_translation_schema rel (JVal.obj fields) ↔
      isJStr v = false := by
    rw [mem_translation_schema_entry rel fields ts ht _
      (fun r f h => VError.noConfusion h) (fun r l h => VError.noConfusion h)
      (fun r f h => VError.noConfusion h)]
    constructor
    · rintro ⟨p, hp, hpe⟩
      rcases mem_checkTranslationEntry_notString.mp hpe with ⟨_, hk2, hs⟩
      have hp2 : (k, p.2) ∈ ts := by
        rw [hk2]
        simpa using hp
      rw [value_unique_of_nodup hnd hmem hp2]
      exact hs
    · intro hs
      exact ⟨(k, v), hmem, mem_checkTranslationEntry_notString.mpr ⟨rfl, rfl, hs⟩⟩
  have hB : VError.trValueEmpty rel k ∈ validate_translation_schema rel (JVal.obj fields) ↔
      v = JVal.str "" := by
    rw [mem_translation_schema_entry rel fields ts ht _
      (fun r f h => VError.noConfusion h) (fun r l h => VError.noConfusion h)
      (fun r f h => VError.noConfusion h)]
    constructor
    · rintro ⟨p, hp, hpe⟩
      rcases mem_checkTranslationEntry_empty.mp hpe with ⟨_, hk2, hs⟩
      have hp2 : (k, p.2) ∈ ts := by
        rw [hk2]
        simpa using hp
      rw [value_unique_of_nodup hnd hmem hp2]
      exact hs
    · intro hs
      exact ⟨(k, v), hmem, mem_checkTranslationEntry_empty.mpr ⟨rfl, rfl, hs⟩⟩
  refine ⟨hA, hB, ?_⟩
  rintro ⟨ha, hb⟩
  have h1 := hA.mp ha
  have h2 := hB.mp hb
  rw [h2] at h1
  cases h1

/-- C8 (amended): in a keyword-base document with an object-valued keywords
field, a key gets exactly one value error when its value fails the Python
isinstance-int-and-nonnegative test, and none otherwise; booleans count as
integers for this test (true as 1, false as 0), so they never get a value
error. -/
theorem c8_keyword_value_count (rel k : String) (fields kws : List (String × JVal)) (v : JVal)
    (hk : fields.lookup "keywords" = some (JVal.obj kws))
    (hnd : (objKeys kws).Nodup) (hmem : (k, v) ∈ kws) :
    (validate_keyword_table_schema rel (JVal.obj fields)).count
      (VError.badKeywordValue rel k (pyStr v)) =
      if pyIsInt v && decide (0 ≤ pyIntVal v) then 0 else 1 := by
  simp only [validate_keyword_table_schema, hk]
  rw [List.count_append]
  have h0 : ∀ (l : List String),
      (if l.isEmpty then ([] : List VError) else [VError.extraRootProps rel l]).count
        (VError.badKeywordValue rel k (pyStr v)) = 0 := by
    intro l
    split <;> simp [List.count_eq_zero]
  rw [h0, Nat.zero_add]
  exact count_badValue_flatMap rel k v kws hnd hmem

/-- C7 counterexample: the key made of the letters of loop followed by a
newline is not wholly lowercase letters, yet the schema checker reports no
error for it, because the Python dollar anchor accepts the trailing
newline. -/
theorem c7_full_match_cex :
    validate_keyword_table_schema "programming-languages/python/keywords-base.json"
      (JVal.obj [("keywords", JVal.obj [("loop\n", JVal.int 1)])]) = [] ∧
    fullyLowerAlpha "loop\n" = false := by
  constructor
  · rfl
  · rfl

/-- C8 counterexample: a keywords value of boolean true is not a JSON
integer, yet the schema checker reports no value error for it, because
Python treats booleans as integers. -/
theorem c8_bool_value_cex :
    validate_keyword_table_schema "programming-languages/python/keywords-base.json"
      (JVal.obj [("keywords", JVal.obj [("flag", JVal.bool true)])]) = [] ∧
    ∀ n : Int, JVal.bool true ≠ JVal.int n := by
  constructor
  · rfl
  · intro n h
    cases h

/-- C7 witness: concrete run of the amended key-pattern theorem on a key
with an uppercase letter, which is reported. -/
theorem c7_keyword_key_pattern_witness :
    (([("keywords", JVal.obj [("Loop", JVal.int 1)])] : List (String × JVal)).lookup "keywords" =
      some (JVal.obj [("Loop", JVal.int 1)])) ∧
    (("Loop", JVal.int 1) ∈ [("Loop", JVal.int 1)]) ∧
    (VError.keyPattern "r" "Loop" ∈ validate_keyword_table_schema "r"
        (JVal.obj [("keywords", JVal.obj [("Loop", JVal.int 1)])]) ↔
      matchLowerPattern "Loop" = false) :=
  ⟨rfl, List.mem_singleton.mpr rfl,
    c7_keyword_key_pattern "r" "Loop" _ _ _ rfl (List.mem_singleton.mpr rfl)⟩

/-- C8 witness: concrete run of the amended value-count theorem on a string
value, which gets exactly one value error. -/
theorem c8_keyword_value_count_witness :
    (([("keywords", JVal.obj [("k", JVal.str "x")])] : List (String × JVal)).lookup "keywords" =
      some (JVal.obj [("k", JVal.str "x")])) ∧
    (objKeys [("k", JVal.str "x")]).Nodup ∧
    (("k", JVal.str "x") ∈ [("k", JVal.str "x")]) ∧
    (validate_keyword_table_schema "r"
        (JVal.obj [("keywords", JVal.obj [("k", JVal.str "x")])])).count
      (VError.badKeywordValue "r" "k" (pyStr (JVal.str "x"))) =
      if pyIsInt (JVal.str "x") && decide (0 ≤ pyIntVal (JVal.str "x")) then 0 else 1 :=
  ⟨rfl, by simp [objKeys], List.mem_singleton.mpr rfl,
    c8_keyword_value_count "r" "k" _ _ _ rfl (by simp [objKeys]) (List.mem_singleton.mpr rfl)⟩

/-- C9 witness: concrete run on an entry whose value is the empty string,
which gets the is-empty error and not the must-be-a-string error. -/
theorem c9_translation_value_errors_witness :
    (([("translations", JVal.obj [("1", JVal.str "")])] : List (String × JVal)).lookup
      "translations" = some (JVal.obj [("1", JVal.str "")])) ∧
    (objKeys [("1", JVal.str "")]).Nodup ∧
    (("1", JVal.str "") ∈ [("1", JVal.str "")]) ∧
    ((VError.trValueNotString "r" "1" ∈ validate_translation_schema "r"
        (JVal.obj [("translations", JVal.obj [("1", JVal.str "")])]) ↔
      isJStr (JVal.str "") = false) ∧
    (VError.trValueEmpty "r" "1" ∈ validate_translation_schema "r"
        (JVal.obj [("translations", JVal.obj [("1", JVal.str "")])]) ↔
      JVal.str "" = JVal.str "") ∧
    ¬(VError.trValueNotString "r" "1" ∈ validate_translation_schema "r"
        (JVal.obj [("translations", JVal.obj [("1", JVal.str "")])]) ∧
      VError.trValueEmpty "r" "1" ∈ validate_translation_schema "r"
        (JVal.obj [("translations", JVal.obj [("1", JVal.str "")])]))) :=
  ⟨rfl, by simp [objKeys], List.mem_singleton.mpr rfl,
    c9_translation_value_errors "r" "1" _ _ _ rfl (by simp [objKeys])
      (List.mem_singleton.mpr rfl)⟩

/-- C1: when any .json file anywhere in the repository tree fails to decode,
the driver reports the syntax error lines, leaves the schema, completeness
and uniqueness stages unrun, and exits with code 1. -/
theorem c1_syntax_gate (repo : List RepoFile) (f : RepoFile) (msg : String)
    (hf : f ∈ allJsonFiles repo) (hc : f.content = Except.error msg) :
    mainDriver repo =
      some (MainResult.mk (validate_json_syntax_errors (allJsonFiles repo)) none none none 1) ∧
    ("  " ++ relPath f ++ ": " ++ msg) ∈ validate_json_syntax_errors (allJsonFiles repo) := by
  have hmem : ("  " ++ relPath f ++ ": " ++ msg) ∈ validate_json_syntax_errors (allJsonFiles repo) := by
    refine List.mem_filterMap.mpr ⟨f, hf, ?_⟩
    rw [hc]
  have hne : (validate_json_syntax_errors (allJsonFiles repo)).isEmpty = false := by
    rcases h : validate_json_syntax_errors (allJsonFiles repo) with _ | ⟨a, l⟩
    · rw [h] at hmem
      cases hmem
    · rfl
  refine ⟨?_, hmem⟩
  simp [mainDriver, hne]

/-- C1 witness: a one-file repository whose only file fails to decode. -/
theorem c1_syntax_gate_witness :
    (RepoFile.mk ["a.json"] (Except.error "boom") ∈
      allJsonFiles [RepoFile.mk ["a.json"] (Except.error "boom")]) ∧
    ((RepoFile.mk ["a.json"] (Except.error "boom")).content = Except.error "boom") ∧
    (mainDriver [RepoFile.mk ["a.json"] (Except.error "boom")] =
      some (MainResult.mk
        (validate_json_syntax_errors (allJsonFiles [RepoFile.mk ["a.json"] (Except.error "boom")]))
        none none none 1) ∧
    ("  " ++ relPath (RepoFile.mk ["a.json"] (Except.error "boom")) ++ ": " ++ "boom") ∈
      validate_json_syntax_errors (allJsonFiles [RepoFile.mk ["a.json"] (Except.error "boom")])) :=
  ⟨List.mem_cons_self _ _, rfl,
    c1_syntax_gate _ _ "boom" (List.mem_cons_self _ _) rfl⟩

/-- C6: the process exits with code 0 exactly when the run completes with
all four checks returning empty error lists; every other run (a failing
stage, the syntax gate, or an uncaught exception) exits with code 1. -/
theorem c6_exit_code (repo : List RepoFile) :
    runExitCode repo = 0 ↔
      ∃ r, mainDriver repo = some r ∧ r.syntaxErrors = [] ∧ r.schemaErrors = some [] ∧
        r.completenessErrors = some [] ∧ r.uniquenessErrors = some [] := by
  unfold runExitCode mainDriver
  cases hse : (validate_json_syntax_errors (allJsonFiles repo)).isEmpty with
  | false => simp [hse]
  | true =>
    have hnil : validate_json_syntax_errors (allJsonFiles repo) = [] := by
      rcases h : validate_json_syntax_errors (allJsonFiles repo) with _ | ⟨a, l⟩
      · rfl
      · rw [h] at hse
        cases hse
    cases h1 : validate_schemas repo with
    | none => simp [hse, h1]
    | some sch =>
      cases h2 : validate_completeness repo with
      | none => simp [hse, h1, h2]
      | some comp =>
        cases h3 : validate_uniqueness repo with
        | none => simp [hse, h1, h2, h3]
        | some uniq =>
          simp [hse, h1, h2, h3, hnil, List.isEmpty_iff]
          exact and_assoc

/-- C10: a translation document without a programmingLanguage field gets the
empty string as its language, and since no keyword-base directory is named
by the empty string, the completeness checker reports the
no-corresponding-keyword-base error for that file and moves on, without
raising. -/
theorem c10_absent_prog_lang (pl : List (String × List String)) (tr : TRFile)
    (fields : List (String × JVal))
    (hd : tr.data = JVal.obj fields)
    (habs : fields.lookup "programmingLanguage" = none)
    (hno : pl.lookup "" = none) :
    checkTranslation pl tr = some [VError.noKeywordBase tr.rel ""] := by
  unfold checkTranslation
  rw [hd]
  simp [pyGet, habs, pyLower, show lowerStr "" = "" from rfl, hno]

/-- C10 witness: a translation file with only a translations field, checked
against a prog_langs table with one language. -/
theorem c10_absent_prog_lang_witness :
    ((TRFile.mk "t.json" (JVal.obj [("translations", JVal.obj [])])).data =
      JVal.obj [("translations", JVal.obj [])]) ∧
    (([("translations", JVal.obj [])] : List (String × JVal)).lookup "programmingLanguage" =
      none) ∧
    (([("python", ["1"])] : List (String × List String)).lookup "" = none) ∧
    checkTranslation [("python", ["1"])]
      (TRFile.mk "t.json" (JVal.obj [("translations", JVal.obj [])])) =
      some [VError.noKeywordBase "t.json" ""] :=
  ⟨rfl, rfl, rfl, c10_absent_prog_lang _ _ _ rfl rfl rfl⟩

theorem validEntry_eq_some {idKey : String} {w : JVal} {p : String × String}
    (h : validEntry (idKey, w) = some p) :
    p.1 = idKey ∧ w = JVal.str p.2 ∧ p.2.isEmpty = false := by
  cases w <;> simp [validEntry] at h
  case str s =>
    obtain ⟨hs, hp⟩ := h
    refine ⟨?_, ?_, ?_⟩
    · rw [← hp]
    · rw [← hp]
    · rw [← hp]
      exact hs

theorem uniqLoop_invalid_step (rel idKey : String) (w : JVal) (rest : List (String × JVal))
    (seen : List (String × String)) (hv : validEntry (idKey, w) = none) :
    uniqLoop rel ((idKey, w) :: rest) seen = uniqLoop rel rest seen := by
  cases w <;> simp [uniqLoop]
  case str s =>
    have hs : s.isEmpty := by
      by_contra hs
      simp [validEntry, hs] at hv
    simp [hs]

theorem dupSpec_invalid_step (rel : String) (pre : List (String × JVal)) (e : String × JVal)
    (rest : List (String × JVal)) (hv : validEntry e = none) :
    dupSpec rel pre (e :: rest) = dupSpec rel (pre ++ [e]) rest := by
  simp [dupSpec, hv]

theorem firstSeenId_append (pre : List (String × JVal)) (e : String × JVal) (lw : String) :
    firstSeenId (pre ++ [e]) lw =
      (firstSeenId pre lw).or
        ((validEntry e).bind (fun q => if lowerStr q.2 == lw then some q.1 else none)) := by
  unfold firstSeenId
  rw [List.filterMap_append, List.find?_append]
  simp only [List.filterMap_cons, List.filterMap_nil]
  cases hv : validEntry e with
  | none =>
    simp only [Option.none_bind, Option.or_none, List.find?_nil]
  | some q =>
    simp only [Option.some_bind]
    cases hf : List.find? (fun p => lowerStr p.2 == lw) (List.filterMap validEntry pre) with
    | none =>
      simp only [Option.none_or, List.find?_cons, List.find?_nil]
      cases hq : (lowerStr q.2 == lw) <;> simp
    | some x =>
      simp

theorem firstSeenId_append_invalid (pre : List (String × JVal)) (e : String × JVal)
    (lw : String) (hv : validEntry e = none) :
    firstSeenId (pre ++ [e]) lw = firstSeenId pre lw := by
  rw [firstSeenId_append, hv]
  simp

theorem uniqLoop_eq_dupSpec (rel : String) :
    ∀ (items pre : List (String × JVal)) (seen : List (String × String)),
    (∀ lw, seen.lookup lw = firstSeenId pre lw) →
    uniqLoop rel items seen = dupSpec rel pre items := by
  intro items
  induction items with
  | nil =>
    intro pre seen hinv
    rfl
  | cons e rest ih =>
    intro pre seen hinv
    obtain ⟨idKey, w⟩ := e
    cases hv : validEntry (idKey, w) with
    | none =>
      rw [uniqLoop_invalid_step rel idKey w rest seen hv,
        dupSpec_invalid_step rel pre (idKey, w) rest hv]
      apply ih
      intro lw
      rw [hinv lw, firstSeenId_append_invalid pre (idKey, w) lw hv]
    | some q =>
      rcases validEntry_eq_some hv with ⟨hq1, hq2, hq3⟩
      subst hq2
      have hloop : uniqLoop rel ((idKey, JVal.str q.2) :: rest) seen =
          (match seen.lookup (lowerStr q.2) with
           | some firstId => VError.dupTranslation rel q.2 firstId idKey ::
               uniqLoop rel rest seen
           | none => uniqLoop rel rest (seen ++ [(lowerStr q.2, idKey)])) := by
        simp [uniqLoop, hq3]
      have hspec : dupSpec rel pre ((idKey, JVal.str q.2) :: rest) =
          (match firstSeenId pre (lowerStr q.2) with
           | some fid => [VError.dupTranslation rel q.2 fid q.1]
           | none => []) ++ dupSpec rel (pre ++ [(idKey, JVal.str q.2)]) rest := by
        simp [dupSpec, hv]
      rw [hloop, hspec, hinv (lowerStr q.2)]
      cases hfs : firstSeenId pre (lowerStr q.2) with
      | some fid =>
        rw [hq1]
        show VError.dupTranslation rel q.2 fid idKey :: uniqLoop rel rest seen =
          VError.dupTranslation rel q.2 fid idKey :: dupSpec rel (pre ++ [(idKey, JVal.str q.2)]) rest
        congr 1
        apply ih
        intro lw
        rw [hinv lw, firstSeenId_append pre (idKey, JVal.str q.2) lw, hv]
        cases hfl : firstSeenId pre lw with
        | some x => rfl
        | none =>
          simp only [Option.none_or, Option.some_bind]
          have hne : (lowerStr q.2 == lw) = false := by
            by_contra hc
            have heq : lowerStr q.2 = lw := by
              have := Bool.of_not_eq_false hc
              exact eq_of_beq this
            rw [← heq] at hfl
            rw [hfs] at hfl
            cases hfl
          rw [hne]
          rfl
      | none =>
        show uniqLoop rel rest (seen ++ [(lowerStr q.2, idKey)]) =
          dupSpec rel (pre ++ [(idKey, JVal.str q.2)]) rest
        apply ih
        intro lw
        rw [List.lookup_append, hinv lw, firstSeenId_append pre (idKey, JVal.str q.2) lw, hv]
        simp only [Option.some_bind]
        rw [hq1]
        congr 1
        show List.lookup lw [(lowerStr q.2, idKey)] =
          (if lowerStr q.2 == lw then some idKey else none)
        by_cases heq : lw = lowerStr q.2
        · subst heq
          simp [List.lookup]
        · have h1 : (lw == lowerStr q.2) = false := beq_eq_false_iff_ne.mpr heq
          have h2 : (lowerStr q.2 == lw) = false := beq_eq_false_iff_ne.mpr (fun h => heq h.symm)
          simp [List.lookup, h1, h2]

/-- C4: the uniqueness checker on one translation document compares words
by their lowercased forms, skips entries whose value is not a non-empty
string, and reports each entry whose lowered word already occurred against
the ID of the first valid entry that introduced that lowered word — every
later duplicate of the same word against that same first ID — naming the
literal translated word (the spec-side description dupSpec). -/
theorem c4_uniqueness_refines (tr : TRFile) (tv : JVal) (items : List (String × JVal))
    (h1 : pyGet tr.data "translations" (JVal.obj []) = some tv)
    (h2 : pyItems tv = some items) :
    checkUniquenessOne tr = some (dupSpec tr.rel [] items) := by
  have hcore := uniqLoop_eq_dupSpec tr.rel items [] [] (fun lw => rfl)
  simp [checkUniquenessOne, h1, h2, hcore]

/-- C4 witness: two IDs translated to the words Loop and loop, reported as
one duplicate of the literal later word against the first ID. -/
theorem c4_uniqueness_refines_witness :
    (pyGet (JVal.obj [("translations",
        JVal.obj [("1", JVal.str "Loop"), ("2", JVal.str "loop")])]) "translations"
      (JVal.obj []) = some (JVal.obj [("1", JVal.str "Loop"), ("2", JVal.str "loop")])) ∧
    (pyItems (JVal.obj [("1", JVal.str "Loop"), ("2", JVal.str "loop")]) =
      some [("1", JVal.str "Loop"), ("2", JVal.str "loop")]) ∧
    checkUniquenessOne (TRFile.mk "t"
        (JVal.obj [("translations",
          JVal.obj [("1", JVal.str "Loop"), ("2", JVal.str "loop")])])) =
      some (dupSpec "t" [] [("1", JVal.str "Loop"), ("2", JVal.str "loop")]) :=
  ⟨rfl, rfl, c4_uniqueness_refines _ _ _ rfl rfl⟩

/-- C5 (amended): resolution succeeds exactly when the lower-cased
programmingLanguage is equal, case-sensitively, to a keyword-base directory
name as written (directory names are not lower-cased by the code, so a
directory whose name contains an uppercase letter is never matched).  On
failure the no-corresponding-keyword-base error is the whole output for the
file and the missing/extra checks are skipped; on success no such error is
emitted for the file. -/
theorem c5_language_resolution (pl : List (String × List String)) (tr : TRFile)
    (plv : JVal) (lang : String)
    (h1 : pyGet tr.data "programmingLanguage" (JVal.str "") = some plv)
    (h2 : pyLower plv = some lang) :
    (pl.lookup lang = none →
      checkTranslation pl tr = some [VError.noKeywordBase tr.rel lang]) ∧
    (∀ baseIds, pl.lookup lang = some baseIds →
      ∀ es, checkTranslation pl tr = some es →
        ∀ r l, VError.noKeywordBase r l ∉ es) := by
  constructor
  · intro hno
    simp [checkTranslation, h1, h2, hno]
  · intro baseIds hres es hes r l hmem
    cases h3 : pyGet tr.data "translations" (JVal.obj []) with
    | none =>
      simp [checkTranslation, h1, h2, hres, h3] at hes
    | some tv =>
      cases h4 : pyKeys tv with
      | none =>
        simp [checkTranslation, h1, h2, hres, h3, h4] at hes
      | some ks =>
        by_cases hm : missingOf baseIds ks = [] <;>
          by_cases hx : extraOf baseIds ks = []
        · simp [checkTranslation, h1, h2, hres, h3, h4, hm, hx] at hes
          rw [hes] at hmem
          cases hmem
        · cases h6 : sortByIntKey (extraOf baseIds ks) with
          | none => simp [checkTranslation, h1, h2, hres, h3, h4, hm, hx, h6] at hes
          | some sx =>
            simp [checkTranslation, h1, h2, hres, h3, h4, hm, hx, h6] at hes
            rw [← hes] at hmem
            simp at hmem
        · cases h5 : sortByIntKey (missingOf baseIds ks) with
          | none => simp [checkTranslation, h1, h2, hres, h3, h4, hm, hx, h5] at hes
          | some sm =>
            simp [checkTranslation, h1, h2, hres, h3, h4, hm, hx, h5] at hes
            rw [← hes] at hmem
            simp at hmem
        · cases h5 : sortByIntKey (missingOf baseIds ks) with
          | none => simp [checkTranslation, h1, h2, hres, h3, h4, hm, hx, h5] at hes
          | some sm =>
            cases h6 : sortByIntKey (extraOf baseIds ks) with
            | none => simp [checkTranslation, h1, h2, hres, h3, h4, hm, hx, h5, h6] at hes
            | some sx =>
              simp [checkTranslation, h1, h2, hres, h3, h4, hm, hx, h5, h6] at hes
              rw [← hes] at hmem
              simp at hmem

/-- C5 counterexample: a keyword-base directory named Python (with an
uppercase letter) exists, and a translation document declares
programmingLanguage Python, whose lower-casing names that directory up to
case; the claim then demands successful resolution, but the checker reports
the no-corresponding-keyword-base error because it compares the lower-cased
language against the directory name as written. -/
theorem c5_case_insensitive_cex :
    completenessCore
      [KBFile.mk "Python" (JVal.obj [("keywords", JVal.obj [("loop", JVal.int 1)])])]
      [TRFile.mk "t" (JVal.obj [("programmingLanguage", JVal.str "Python"),
        ("translations", JVal.obj [("1", JVal.str "repetir")])])] =
      some [VError.noKeywordBase "t" "python"] ∧
    lowerStr "Python" = "python" := ⟨rfl, rfl⟩

/-- C5 witness: an unresolvable language gives exactly the resolution error,
and a resolvable one never does. -/
theorem c5_language_resolution_witness :
    (pyGet (JVal.obj [("programmingLanguage", JVal.str "HASKELL")]) "programmingLanguage"
      (JVal.str "") = some (JVal.str "HASKELL")) ∧
    (pyLower (JVal.str "HASKELL") = some "haskell") ∧
    ((([("python", ["1"])] : List (String × List String)).lookup "haskell" = none →
      checkTranslation [("python", ["1"])]
        (TRFile.mk "t" (JVal.obj [("programmingLanguage", JVal.str "HASKELL")])) =
        some [VError.noKeywordBase "t" "haskell"]) ∧
    (∀ baseIds, ([("python", ["1"])] : List (String × List String)).lookup "haskell" =
        some baseIds →
      ∀ es, checkTranslation [("python", ["1"])]
          (TRFile.mk "t" (JVal.obj [("programmingLanguage", JVal.str "HASKELL")])) = some es →
        ∀ r l, VError.noKeywordBase r l ∉ es)) :=
  ⟨rfl, rfl, c5_language_resolution _ _ _ _ rfl rfl⟩

/-- C2: for a translation document whose programming language resolves, the
completeness checker emits exactly one missing-IDs error when the set of
keyword-base IDs absent from the translation IDs is non-empty (its payload
comma-joining those IDs sorted by numeric value), exactly one analogous
extra-IDs error, nothing for an empty set, and nothing else; and every
entry of the prog_langs table carries the set of string forms of the values
(not keys) of the keywords mapping of one keyword-base file. -/
theorem c2_completeness_reports
    (kbs : List KBFile) (pl : List (String × List String)) (tr : TRFile)
    (plv : JVal) (lang : String) (baseIds : List String) (tv : JVal) (ks : List String)
    (hpl : buildProgLangs kbs = some pl)
    (h1 : pyGet tr.data "programmingLanguage" (JVal.str "") = some plv)
    (h2 : pyLower plv = some lang)
    (hres : pl.lookup lang = some baseIds)
    (h3 : pyGet tr.data "translations" (JVal.obj []) = some tv)
    (h4 : pyKeys tv = some ks)
    (hm : ∀ s ∈ missingOf baseIds ks, (pyInt s).isSome)
    (hx : ∀ s ∈ extraOf baseIds ks, (pyInt s).isSome) :
    (∀ p ∈ pl, ∃ kb ∈ kbs, kb.langName = p.1 ∧ kbIdSet kb.data = some p.2) ∧
    ∃ mPart xPart, checkTranslation pl tr = some (mPart ++ xPart) ∧
      (missingOf baseIds ks = [] → mPart = []) ∧
      (missingOf baseIds ks ≠ [] → ∃ L, L.Perm (missingOf baseIds ks) ∧ sortedByIntKey L ∧
        mPart = [VError.missingIds tr.rel (String.intercalate ", " L)]) ∧
      (extraOf baseIds ks = [] → xPart = []) ∧
      (extraOf baseIds ks ≠ [] → ∃ L, L.Perm (extraOf baseIds ks) ∧ sortedByIntKey L ∧
        xPart = [VError.extraIds tr.rel (String.intercalate ", " L)]) := by
  constructor
  · intro p hp
    rcases buildProgLangsAux_mem kbs [] pl hpl p hp with h | h
    · cases h
    · exact h
  · by_cases hm0 : missingOf baseIds ks = [] <;> by_cases hx0 : extraOf baseIds ks = []
    · refine ⟨[], [], ?_, fun _ => rfl, fun h0 => absurd hm0 h0, fun _ => rfl,
        fun h0 => absurd hx0 h0⟩
      simp [checkTranslation, h1, h2, hres, h3, h4, hm0, hx0]
    · rcases sortByIntKey_spec (extraOf baseIds ks) hx with ⟨Lx, hsx, hpx, hsox⟩
      refine ⟨[], [VError.extraIds tr.rel (String.intercalate ", " Lx)], ?_,
        fun _ => rfl, fun h0 => absurd hm0 h0, fun h0 => absurd h0 hx0,
        fun _ => ⟨Lx, hpx, hsox, rfl⟩⟩
      simp [checkTranslation, h1, h2, hres, h3, h4, hm0, hx0, hsx]
    · rcases sortByIntKey_spec (missingOf baseIds ks) hm with ⟨Lm, hsm, hpm, hsom⟩
      refine ⟨[VError.missingIds tr.rel (String.intercalate ", " Lm)], [], ?_,
        fun h0 => absurd h0 hm0, fun _ => ⟨Lm, hpm, hsom, rfl⟩, fun _ => rfl,
        fun h0 => absurd hx0 h0⟩
      simp [checkTranslation, h1, h2, hres, h3, h4, hm0, hx0, hsm]
    · rcases sortByIntKey_spec (missingOf baseIds ks) hm with ⟨Lm, hsm, hpm, hsom⟩
      rcases sortByIntKey_spec (extraOf baseIds ks) hx with ⟨Lx, hsx, hpx, hsox⟩
      refine ⟨[VError.missingIds tr.rel (String.intercalate ", " Lm)],
        [VError.extraIds tr.rel (String.intercalate ", " Lx)], ?_,
        fun h0 => absurd h0 hm0, fun _ => ⟨Lm, hpm, hsom, rfl⟩,
        fun h0 => absurd h0 hx0, fun _ => ⟨Lx, hpx, hsox, rfl⟩⟩
      simp [checkTranslation, h1, h2, hres, h3, h4, hm0, hx0, hsm, hsx]

/-- C2 witness: base IDs 1 and 2 against translation IDs 1 and 3: one
missing-IDs error for 2 and one extra-IDs error for 3. -/
theorem c2_completeness_reports_witness :
    (buildProgLangs [KBFile.mk "python" (JVal.obj [("keywords",
        JVal.obj [("loop", JVal.int 1), ("func", JVal.int 2)])])] =
      some [("python", ["1", "2"])]) ∧
    (pyGet (JVal.obj [("programmingLanguage", JVal.str "Python"),
        ("translations", JVal.obj [("1", JVal.str "a"), ("3", JVal.str "b")])])
      "programmingLanguage" (JVal.str "") = some (JVal.str "Python")) ∧
    (pyLower (JVal.str "Python") = some "python") ∧
    (([("python", ["1", "2"])] : List (String × List String)).lookup "python" =
      some ["1", "2"]) ∧
    (pyGet (JVal.obj [("programmingLanguage", JVal.str "Python"),
        ("translations", JVal.obj [("1", JVal.str "a"), ("3", JVal.str "b")])])
      "translations" (JVal.obj []) =
      some (JVal.obj [("1", JVal.str "a"), ("3", JVal.str "b")])) ∧
    (pyKeys (JVal.obj [("1", JVal.str "a"), ("3", JVal.str "b")]) = some ["1", "3"]) ∧
    (∀ s ∈ missingOf ["1", "2"] ["1", "3"], (pyInt s).isSome) ∧
    (∀ s ∈ extraOf ["1", "2"] ["1", "3"], (pyInt s).isSome) ∧
    ((∀ p ∈ ([("python", ["1", "2"])] : List (String × List String)),
      ∃ kb ∈ [KBFile.mk "python" (JVal.obj [("keywords",
          JVal.obj [("loop", JVal.int 1), ("func", JVal.int 2)])])],
        kb.langName = p.1 ∧ kbIdSet kb.data = some p.2) ∧
    ∃ mPart xPart, checkTranslation [("python", ["1", "2"])]
        (TRFile.mk "t" (JVal.obj [("programmingLanguage", JVal.str "Python"),
          ("translations", JVal.obj [("1", JVal.str "a"), ("3", JVal.str "b")])])) =
        some (mPart ++ xPart) ∧
      (missingOf ["1", "2"] ["1", "3"] = [] → mPart = []) ∧
      (missingOf ["1", "2"] ["1", "3"] ≠ [] → ∃ L, L.Perm (missingOf ["1", "2"] ["1", "3"]) ∧
        sortedByIntKey L ∧ mPart = [VError.missingIds "t" (String.intercalate ", " L)]) ∧
      (extraOf ["1", "2"] ["1", "3"] = [] → xPart = []) ∧
      (extraOf ["1", "2"] ["1", "3"] ≠ [] → ∃ L, L.Perm (extraOf ["1", "2"] ["1", "3"]) ∧
        sortedByIntKey L ∧ xPart = [VError.extraIds "t" (String.intercalate ", " L)])) :=
  ⟨rfl, rfl, rfl, rfl, rfl, rfl, by decide, by decide,
    c2_completeness_reports _ _ _ _ _ _ _ _ rfl rfl rfl rfl rfl rfl
      (by decide) (by decide)⟩

theorem kbIdSet_isSome_of_shape (kb : KBFile) (h : KBShape kb) : (kbIdSet kb.data).isSome := by
  rcases h with ⟨fields, hd, hk⟩
  rw [hd]
  cases hl : fields.lookup "keywords" with
  | none => simp [kbIdSet, pyGet, hl, pyValues]
  | some v =>
    rcases hk v hl with ⟨kws, hv⟩
    subst hv
    simp [kbIdSet, pyGet, hl, pyValues]

theorem buildProgLangs_isSome (kbs : List KBFile) (h : ∀ kb ∈ kbs, KBShape kb) :
    ∃ pl, buildProgLangs kbs = some pl := by
  suffices hs : ∀ acc, ∃ pl, buildProgLangsAux acc kbs = some pl from hs []
  induction kbs with
  | nil => intro acc; exact ⟨acc, rfl⟩
  | cons kb rest ih =>
    intro acc
    have h1 := kbIdSet_isSome_of_shape kb (h kb (List.mem_cons_self kb rest))
    cases hids : kbIdSet kb.data with
    | none => rw [hids] at h1; cases h1
    | some ids =>
      rcases ih (fun kb2 hkb2 => h kb2 (List.mem_cons_of_mem kb hkb2))
        (dictInsert acc kb.langName ids) with ⟨pl, hpl⟩
      refine ⟨pl, ?_⟩
      unfold buildProgLangsAux
      rw [hids]
      exact hpl

theorem checkTranslation_isSome_of (pl : List (String × List String)) (tr : TRFile)
    (hsh : TRShape tr) (hparse : TRIdsParse pl tr) :
    (checkTranslation pl tr).isSome := by
  rcases hsh with ⟨fields, hd, hplv, htrv⟩
  have h1 : pyGet tr.data "programmingLanguage" (JVal.str "") =
      some ((fields.lookup "programmingLanguage").getD (JVal.str "")) := by
    rw [hd]
    rfl
  have h2 : ∃ lang, pyLower ((fields.lookup "programmingLanguage").getD (JVal.str "")) =
      some lang := by
    cases hl : fields.lookup "programmingLanguage" with
    | none => exact ⟨lowerStr "", rfl⟩
    | some v =>
      rcases hplv v hl with ⟨s, hs⟩
      subst hs
      exact ⟨lowerStr s, rfl⟩
  obtain ⟨lang, h2⟩ := h2
  cases hres : pl.lookup lang with
  | none => simp [checkTranslation, h1, h2, hres]
  | some baseIds =>
    have h3 : pyGet tr.data "translations" (JVal.obj []) =
        some ((fields.lookup "translations").getD (JVal.obj [])) := by
      rw [hd]
      rfl
    have h4 : ∃ ks, pyKeys ((fields.lookup "translations").getD (JVal.obj [])) = some ks := by
      cases ht : fields.lookup "translations" with
      | none => exact ⟨[], rfl⟩
      | some v =>
        rcases htrv v ht with ⟨ts, hts⟩
        subst hts
        exact ⟨ts.map Prod.fst, rfl⟩
    obtain ⟨ks, h4⟩ := h4
    rcases hparse _ _ _ _ _ h1 h2 hres h3 h4 with ⟨hm, hx⟩
    by_cases hm0 : missingOf baseIds ks = [] <;> by_cases hx0 : extraOf baseIds ks = []
    · simp [checkTranslation, h1, h2, hres, h3, h4, hm0, hx0]
    · rcases sortByIntKey_spec _ hx with ⟨Lx, hsx, _, _⟩
      simp [checkTranslation, h1, h2, hres, h3, h4, hm0, hx0, hsx]
    · rcases sortByIntKey_spec _ hm with ⟨Lm, hsm, _, _⟩
      simp [checkTranslation, h1, h2, hres, h3, h4, hm0, hx0, hsm]
    · rcases sortByIntKey_spec _ hm with ⟨Lm, hsm, _, _⟩
      rcases sortByIntKey_spec _ hx with ⟨Lx, hsx, _, _⟩
      simp [checkTranslation, h1, h2, hres, h3, h4, hm0, hx0, hsm, hsx]

theorem checkUniquenessOne_isSome_of (tr : TRFile) (hsh : TRShape tr) :
    (checkUniquenessOne tr).isSome := by
  rcases hsh with ⟨fields, hd, _, htrv⟩
  have h3 : pyGet tr.data "translations" (JVal.obj []) =
      some ((fields.lookup "translations").getD (JVal.obj [])) := by
    rw [hd]
    rfl
  cases ht : fields.lookup "translations" with
  | none => simp [checkUniquenessOne, h3, ht, pyItems]
  | some v =>
    rcases htrv v ht with ⟨ts, hts⟩
    subst hts
    simp [checkUniquenessOne, h3, ht, pyItems]

/-- Successful elementwise sequencing: when every element maps to some, the
whole list maps to some, with pointwise corresponding results. -/
theorem mapOptionList_some {α β : Type} (f : α → Option β) :
    ∀ (l : List α), (∀ a ∈ l, (f a).isSome) →
    ∃ bs, mapOptionList f l = some bs ∧ List.Forall₂ (fun a b => f a = some b) l bs := by
  intro l
  induction l with
  | nil => intro _; exact ⟨[], rfl, List.Forall₂.nil⟩
  | cons a rest ih =>
    intro h
    have ha := h a (List.mem_cons_self a rest)
    cases hfa : f a with
    | none =>
      rw [hfa] at ha
      cases ha
    | some b =>
      rcases ih (fun x hx => h x (List.mem_cons_of_mem a hx)) with ⟨bs, hbs, hcorr⟩
      refine ⟨b :: bs, ?_, List.Forall₂.cons hfa hcorr⟩
      show Option.bind (f a)
        (fun b2 => Option.bind (mapOptionList f rest) (fun bs2 => some (b2 :: bs2))) =
        some (b :: bs)
      rw [hfa, Option.some_bind, hbs, Option.some_bind]

/-- C3 (amended): on decoded inputs whose documents have the shapes the
checks assume — object roots, string programmingLanguage and object
translations when present, and all compared IDs parsing as integers — each
non-syntax check runs to completion and returns the concatenation of its
per-file findings, independent of any earlier findings (the schema checker
is total by construction); outside those shapes the completeness or
uniqueness checker raises an uncaught exception instead. -/
theorem c3_checks_run_to_completion
    (kbs : List KBFile) (trs : List TRFile)
    (hkb : ∀ kb ∈ kbs, KBShape kb)
    (htr : ∀ tr ∈ trs, TRShape tr)
    (hparse : ∀ pl, buildProgLangs kbs = some pl → ∀ tr ∈ trs, TRIdsParse pl tr) :
    (∀ skbs strs : List (String × JVal), schemasCore skbs strs =
      skbs.flatMap (fun p => validate_keyword_table_schema p.1 p.2) ++
      strs.flatMap (fun p => validate_translation_schema p.1 p.2)) ∧
    (∃ pl, buildProgLangs kbs = some pl ∧
      ∃ perFile, List.Forall₂ (fun tr es => checkTranslation pl tr = some es) trs perFile ∧
        completenessCore kbs trs = some perFile.flatten) ∧
    (∃ perFile, List.Forall₂ (fun tr es => checkUniquenessOne tr = some es) trs perFile ∧
      uniquenessCore trs = some perFile.flatten) := by
  refine ⟨fun _ _ => rfl, ?_, ?_⟩
  · rcases buildProgLangs_isSome kbs hkb with ⟨pl, hpl⟩
    rcases mapOptionList_some (checkTranslation pl) trs
      (fun tr htrm => checkTranslation_isSome_of pl tr (htr tr htrm)
        (hparse pl hpl tr htrm)) with ⟨perFile, hmap, hcorr⟩
    refine ⟨pl, hpl, perFile, hcorr, ?_⟩
    simp [completenessCore, hpl, hmap]
  · rcases mapOptionList_some checkUniquenessOne trs
      (fun tr htrm => checkUniquenessOne_isSome_of tr (htr tr htrm)) with ⟨perFile, hmap, hcorr⟩
    refine ⟨perFile, hcorr, ?_⟩
    simp [uniquenessCore, hmap]

/-- C3 counterexample: a decodable translation file whose root is an array
makes the completeness checker raise, losing the findings it would report
on the next file, and a decodable file whose translations field is a string
makes the uniqueness checker raise. -/
theorem c3_no_fail_fast_cex :
    completenessCore []
      [TRFile.mk "natural-languages/pt/a.json" (JVal.arr []),
       TRFile.mk "natural-languages/pt/b.json" (JVal.obj [])] = none ∧
    completenessCore []
      [TRFile.mk "natural-languages/pt/b.json" (JVal.obj [])] =
      some [VError.noKeywordBase "natural-languages/pt/b.json" ""] ∧
    uniquenessCore [TRFile.mk "natural-languages/pt/c.json"
      (JVal.obj [("translations", JVal.str "x")])] = none :=
  ⟨rfl, rfl, rfl⟩

/-- C3 witness: one well-shaped keyword-base file and one well-shaped,
exactly complete translation file. -/
theorem c3_checks_run_to_completion_witness :
    (∀ kb ∈ [KBFile.mk "python" (JVal.obj [("keywords", JVal.obj [("loop", JVal.int 1)])])],
      KBShape kb) ∧
    (∀ tr ∈ [TRFile.mk "t" (JVal.obj [("programmingLanguage", JVal.str "python"),
        ("translations", JVal.obj [("1", JVal.str "a")])])], TRShape tr) ∧
    (∀ pl, buildProgLangs
        [KBFile.mk "python" (JVal.obj [("keywords", JVal.obj [("loop", JVal.int 1)])])] =
        some pl →
      ∀ tr ∈ [TRFile.mk "t" (JVal.obj [("programmingLanguage", JVal.str "python"),
          ("translations", JVal.obj [("1", JVal.str "a")])])], TRIdsParse pl tr) ∧
    ((∀ skbs strs : List (String × JVal), schemasCore skbs strs =
      skbs.flatMap (fun p => validate_keyword_table_schema p.1 p.2) ++
      strs.flatMap (fun p => validate_translation_schema p.1 p.2)) ∧
    (∃ pl, buildProgLangs
        [KBFile.mk "python" (JVal.obj [("keywords", JVal.obj [("loop", JVal.int 1)])])] =
        some pl ∧
      ∃ perFile, List.Forall₂ (fun tr es => checkTranslation pl tr = some es)
          [TRFile.mk "t" (JVal.obj [("programmingLanguage", JVal.str "python"),
            ("translations", JVal.obj [("1", JVal.str "a")])])] perFile ∧
        completenessCore
          [KBFile.mk "python" (JVal.obj [("keywords", JVal.obj [("loop", JVal.int 1)])])]
          [TRFile.mk "t" (JVal.obj [("programmingLanguage", JVal.str "python"),
            ("translations", JVal.obj [("1", JVal.str "a")])])] = some perFile.flatten) ∧
    (∃ perFile, List.Forall₂ (fun tr es => checkUniquenessOne tr = some es)
        [TRFile.mk "t" (JVal.obj [("programmingLanguage", JVal.str "python"),
          ("translations", JVal.obj [("1", JVal.str "a")])])] perFile ∧
      uniquenessCore
        [TRFile.mk "t" (JVal.obj [("programmingLanguage", JVal.str "python"),
          ("translations", JVal.obj [("1", JVal.str "a")])])] = some perFile.flatten)) := by
  have hkb : ∀ kb ∈ [KBFile.mk "python"
      (JVal.obj [("keywords", JVal.obj [("loop", JVal.int 1)])])], KBShape kb := by
    intro kb hm
    rw [List.mem_singleton] at hm
    subst hm
    exact ⟨[("keywords", JVal.obj [("loop", JVal.int 1)])], rfl,
      fun v hv => ⟨[("loop", JVal.int 1)], (Option.some.inj hv).symm⟩⟩
  have htr : ∀ tr ∈ [TRFile.mk "t" (JVal.obj [("programmingLanguage", JVal.str "python"),
      ("translations", JVal.obj [("1", JVal.str "a")])])], TRShape tr := by
    intro tr hm
    rw [List.mem_singleton] at hm
    subst hm
    exact ⟨[("programmingLanguage", JVal.str "python"),
        ("translations", JVal.obj [("1", JVal.str "a")])], rfl,
      fun v hv => ⟨"python", (Option.some.inj hv).symm⟩,
      fun v hv => ⟨[("1", JVal.str "a")], (Option.some.inj hv).symm⟩⟩
  have hparse : ∀ pl, buildProgLangs
      [KBFile.mk "python" (JVal.obj [("keywords", JVal.obj [("loop", JVal.int 1)])])] =
      some pl →
      ∀ tr ∈ [TRFile.mk "t" (JVal.obj [("programmingLanguage", JVal.str "python"),
          ("translations", JVal.obj [("1", JVal.str "a")])])], TRIdsParse pl tr := by
    intro pl hpl tr hm
    obtain rfl : pl = [("python", ["1"])] := (Option.some.inj hpl).symm
    rw [List.mem_singleton] at hm
    subst hm
    intro plv lang baseIds tv ks e1 e2 e3 e4 e5
    obtain rfl : plv = JVal.str "python" := (Option.some.inj e1).symm
    obtain rfl : lang = lowerStr "python" := (Option.some.inj e2).symm
    obtain rfl : baseIds = ["1"] := (Option.some.inj e3).symm
    obtain rfl : tv = JVal.obj [("1", JVal.str "a")] := (Option.some.inj e4).symm
    obtain rfl : ks = ["1"] := (Option.some.inj e5).symm
    exact ⟨by decide, by decide⟩
  exact ⟨hkb, htr, hparse, c3_checks_run_to_completion _ _ hkb htr hparse⟩
